import Mathlib

/-!
Verification of the bounded-concurrency task queue in
`src/JavaScript/5-pipe.js` (classes `QueueFactory` / `Queue`).

The JavaScript code is shallowly embedded as a state machine:

* `Queue` mirrors the runtime object: configuration fields copied from the
  factory (`concurrency`, `priorityMode`, `waitTimeout`, `processTimeout`),
  the wired `destination` (abstracted to the boolean `hasDestination`, since
  forwarding is a one-way `add` call into an independent queue), and the
  mutable state `paused`, `count`, `waiting`.
* JavaScript `Infinity` timeouts are `Option Int` with `none` = no limit;
  timestamps (`Date.now()`) are `Int` values supplied by the environment.
* Each per-task completion closure created by `Queue.next` (its `finished`
  flag and `timer`) is an `Act` record stored in `acts`; the list index is
  the activation id.  `pendingPulls` counts `setTimeout(..., 0)` callbacks
  scheduled by the wait-timeout branch of `takeNext` that have not run yet.
* Calls to the opaque collaborators (`onProcess`, `onFailure`, `onSuccess`,
  `onDone`, `onDrain`, `destination.add`) are recorded as `Event`s.  The
  model emits the event whether or not the optional listener is configured;
  an event stands for "the listener is invoked if present".
  `Event.handlerStart` carries two ghost fields recording the values of
  `this.paused` and of `this.count < this.concurrency` at the moment
  `next` was entered, used to state the admission-gate claims.
* A JavaScript `TypeError` (destructuring `waiting.shift()` of an empty
  array) is the `crashed` flag of `Res`; state mutated before the throw is
  kept, and code after the throw does not run.
* The handler is the spec's opaque asynchronous collaborator: it returns
  immediately and its callback invocations arrive as separate `Step`s
  (`handlerDone`, `timer`), the only suspension point of the design.
-/

/-- Error kinds reported through the completion listeners: the two internal
timeout errors created by the queue, and opaque handler-supplied errors. -/
inductive Err where
  | processTimeout
  | waitTimeout
  | handler (code : Nat)
deriving DecidableEq

/-- Observable calls made by the queue to its collaborators.  `handlerStart`
is the invocation `onProcess(task, finish)`; its ghost fields `pausedAt` and
`hadChannel` record `this.paused` and `this.count < this.concurrency` at
that moment.  `destAdd` is the call `this.destination.add(res)`. -/
inductive Event where
  | handlerStart (id : Nat) (task : Nat) (pausedAt : Bool) (hadChannel : Bool)
  | failure (e : Err) (res : Nat)
  | success (res : Nat)
  | destAdd (res : Nat)
  | done (e : Option Err) (res : Nat)
  | drain
deriving DecidableEq

/-- A waiting entry, as pushed by `add`: `{ task, start: Date.now(), priority }`. -/
structure Entry where
  task : Nat
  start : Int
  priority : Int
deriving DecidableEq

/-- The per-invocation activation record of the closure `finish` created in
`Queue.next`: the captured `task`, the `finished` flag, and whether the
`processTimeout` timer is currently armed (`timer` non-null and not yet
cleared).  Activation records are indexed by position in `Queue.acts`. -/
structure Act where
  task : Nat
  finished : Bool
  timerArmed : Bool
deriving DecidableEq

/-- The runtime queue object: configuration copied from the factory by
`Object.assign`, plus mutable state.  `acts` and `pendingPulls` are the
reified closures and scheduled zero-delay callbacks described above. -/
structure Queue where
  concurrency : Int
  priorityMode : Bool
  waitTimeout : Option Int
  processTimeout : Option Int
  hasDestination : Bool
  paused : Bool
  count : Int
  waiting : List Entry
  pendingPulls : Nat
  acts : List Act
deriving DecidableEq

/-- Result of running one synchronous piece of queue code: the state when it
returns (or throws), the collaborator calls it made, and whether it threw a
TypeError (`crashed`). -/
structure Res where
  state : Queue
  events : List Event
  crashed : Bool
deriving DecidableEq

/-- The comparator `(a, b) => b.priority - a.priority` passed to
`Array.prototype.sort`, as the ordering relation it induces: `a` may come
before `b` iff the comparator is non-positive, i.e. `b.priority ≤ a.priority`. -/
def prioGe (a b : Entry) : Prop := b.priority ≤ a.priority

instance : DecidableRel prioGe := fun a b =>
  inferInstanceAs (Decidable (b.priority ≤ a.priority))

instance : IsTotal Entry prioGe :=
  ⟨fun a b => Int.le_total b.priority a.priority⟩

instance : IsTrans Entry prioGe :=
  ⟨fun _ _ _ h1 h2 => le_trans h2 h1⟩

/-- The effect of `this.waiting.sort((a, b) => b.priority - a.priority)`.
ECMAScript requires `Array.prototype.sort` to be stable (ES2019) and to
produce a list sorted with respect to a consistent comparator; the unique
such permutation is computed by stable insertion sort with `prioGe`. -/
def jsSortDesc (l : List Entry) : List Entry := List.insertionSort prioGe l

/-- The wait-timeout test of `takeNext`: `waitTimeout !== Infinity` and
`Date.now() - start > waitTimeout`. -/
def wtExceeded (wt : Option Int) (now enq : Int) : Bool :=
  match wt with
  | none => false
  | some w => decide (now - enq > w)

/-- The method `Queue.prototype.finish(err, res)`: notifies the configured
listeners and, on success, forwards the result to the wired destination; the
call pattern is returned as the event list.  It reads but never writes the
queue state, so only events are produced. -/
def Queue.finish (s : Queue) (err : Option Err) (res : Nat) : List Event :=
  (match err with
   | some e => [Event.failure e res]
   | none => Event.success res :: (if s.hasDestination then [Event.destAdd res] else []))
  ++ Event.done err res :: (if s.count = 0 then [Event.drain] else [])

/-- The method `Queue.prototype.next(task)`: increments `count`, creates the
completion closure (a fresh `Act`, with the timer armed iff `processTimeout`
is finite), and invokes `onProcess(task, finish)`. -/
def Queue.next (s : Queue) (task : Nat) : Queue × List Event :=
  ({ s with
      count := s.count + 1,
      acts := s.acts ++ [⟨task, false, s.processTimeout.isSome⟩] },
   [Event.handlerStart s.acts.length task s.paused (decide (s.count < s.concurrency))])

/-- The method `Queue.prototype.takeNext()`: shifts the head of `waiting`
(throwing a TypeError when the array is empty, since `{ task, start }` is
destructured from `undefined`); on a wait-timeout it finishes the entry with
the waiting-timed-out error and, when entries remain, schedules one
zero-delay follow-up pull; otherwise it starts the task if a channel is
free, and silently returns if not. -/
def Queue.takeNext (s : Queue) (now : Int) : Res :=
  match s.waiting with
  | [] => ⟨s, [], true⟩
  | e :: rest =>
    let s1 : Queue := { s with waiting := rest }
    if wtExceeded s.waitTimeout now e.start then
      let evs := s1.finish (some Err.waitTimeout) e.task
      if rest.isEmpty then ⟨s1, evs, false⟩
      else ⟨{ s1 with pendingPulls := s1.pendingPulls + 1 }, evs, false⟩
    else
      if s1.count < s1.concurrency then
        let p := s1.next e.task
        ⟨p.1, p.2, false⟩
      else ⟨s1, [], false⟩

/-- An invocation of the completion closure `finish(err, res)` created by
`next` for activation `id` (whether from the handler or from the process
timer): a no-op when already finished, otherwise it marks the activation
finished, clears the timer, decrements `count`, runs `this.finish`, and then
pulls the next waiting entry when the queue is unpaused and non-empty. -/
def Queue.finishCb (s : Queue) (id : Nat) (now : Int) (err : Option Err) (res : Nat) : Res :=
  match s.acts[id]? with
  | none => ⟨s, [], false⟩
  | some a =>
    if a.finished then ⟨s, [], false⟩
    else
      let s1 : Queue := { s with
        count := s.count - 1,
        acts := s.acts.set id ⟨a.task, true, false⟩ }
      let evs := s1.finish err res
      if s1.paused = false ∧ s1.waiting ≠ [] then
        let r := s1.takeNext now
        ⟨r.state, evs ++ r.events, r.crashed⟩
      else ⟨s1, evs, false⟩

/-- The process timer of activation `id` elapsing: `setTimeout` invokes the
completion closure with the prepared process-timed-out error and the
original task, provided the timer was not cleared (first completion clears
it, so an armed timer implies a pending activation). -/
def Queue.timerFire (s : Queue) (id : Nat) (now : Int) : Res :=
  match s.acts[id]? with
  | none => ⟨s, [], false⟩
  | some a =>
    if a.timerArmed then s.finishCb id now (some Err.processTimeout) a.task
    else ⟨s, [], false⟩

/-- The method `Queue.prototype.add(task, priority = 0)`: starts the task at
once when the queue is unpaused and a channel is free, otherwise pushes a
waiting entry and, in priority mode, re-sorts `waiting`. -/
def Queue.add (s : Queue) (now : Int) (task : Nat) (priority : Int := 0) : Res :=
  if s.paused = false ∧ s.count < s.concurrency then
    let p := s.next task
    ⟨p.1, p.2, false⟩
  else
    let w := s.waiting ++ [⟨task, now, priority⟩]
    ⟨{ s with waiting := if s.priorityMode then jsSortDesc w else w }, [], false⟩

/-- The method `Queue.prototype.pause()`. -/
def Queue.pause (s : Queue) : Res := ⟨{ s with paused := true }, [], false⟩

/-- The `for (let i = 0; i < channels; i++) this.takeNext()` loop of
`resume`, with a thrown TypeError aborting the remaining iterations. -/
def Queue.takeLoop (now : Int) : Nat → Queue → Res
  | 0, s => ⟨s, [], false⟩
  | n + 1, s =>
    let r := s.takeNext now
    if r.crashed then r
    else
      let r2 := Queue.takeLoop now n r.state
      ⟨r2.state, r.events ++ r2.events, r2.crashed⟩

/-- The method `Queue.prototype.resume()`: when `waiting` is non-empty it
calls `takeNext` once per `this.concurrency - this.count` (computed before
the loop), and only afterwards sets `paused = false`; an exception escaping
the loop leaves `paused` untouched. -/
def Queue.resume (s : Queue) (now : Int) : Res :=
  if s.waiting.isEmpty then ⟨{ s with paused := false }, [], false⟩
  else
    let r := Queue.takeLoop now (s.concurrency - s.count).toNat s
    if r.crashed then r
    else ⟨{ r.state with paused := false }, r.events, false⟩

/-- One zero-delay callback scheduled by the wait-timeout branch of
`takeNext` running: it re-checks `!this.paused && waiting.length > 0` at
this later moment and only then calls `takeNext`. -/
def Queue.pulse (s : Queue) (now : Int) : Res :=
  if s.pendingPulls = 0 then ⟨s, [], false⟩
  else
    let s1 : Queue := { s with pendingPulls := s.pendingPulls - 1 }
    if s1.paused = false ∧ s1.waiting ≠ [] then s1.takeNext now
    else ⟨s1, [], false⟩

/-- The method `Queue.prototype.pipe(destination)`: wires the destination. -/
def Queue.pipe (s : Queue) : Res := ⟨{ s with hasDestination := true }, [], false⟩

/-- One externally triggered step: a caller invoking `add`, `pause`,
`resume` or `pipe`; the handler invoking a completion callback; a process
timer elapsing; or a scheduled zero-delay pull running. -/
inductive Step where
  | add (now : Int) (task : Nat) (priority : Int)
  | handlerDone (now : Int) (id : Nat) (err : Option Err) (res : Nat)
  | timer (now : Int) (id : Nat)
  | tick (now : Int)
  | pause
  | resume (now : Int)
  | pipe
deriving DecidableEq

/-- Whether a step is a `resume` call. -/
def Step.isResume : Step → Bool
  | .resume _ => true
  | _ => false

/-- Executing one step against a queue state. -/
def exec (s : Queue) : Step → Res
  | .add now task priority => s.add now task priority
  | .handlerDone now id err res => s.finishCb id now err res
  | .timer now id => s.timerFire id now
  | .tick now => s.pulse now
  | .pause => s.pause
  | .resume now => s.resume now
  | .pipe => s.pipe

/-- A freshly built queue: `new Queue(factory)` with the factory configured
by `channels` / `priority` / `wait` / `timeout`; `paused = false`,
`count = 0`, `waiting = []`, no destination. -/
def initQ (c : Int) (pm : Bool) (wt pt : Option Int) : Queue :=
  ⟨c, pm, wt, pt, false, false, 0, [], 0, []⟩

/-- States reachable from `s0` by a sequence of steps, including the state
left behind by a step that threw. -/
inductive Reach (s0 : Queue) : Queue → Prop where
  | refl : Reach s0 s0
  | step (s : Queue) (st : Step) : Reach s0 s → Reach s0 (exec s st).state

/-- Running a list of steps, accumulating all emitted events. -/
def runSteps (s : Queue) : List Step → Queue × List Event
  | [] => (s, [])
  | st :: rest =>
    let r := exec s st
    let p := runSteps r.state rest
    (p.1, r.events ++ p.2)

/-- The tasks whose handler invocations occur in an event list, in order. -/
def startedTasks (evs : List Event) : List Nat :=
  evs.filterMap fun ev =>
    match ev with
    | .handlerStart _ t _ _ => some t
    | _ => none

/-- An activation whose completion closure has not yet run: it occupies a
channel. -/
def unfin (a : Act) : Bool := !a.finished

/-- The state invariant: `count` equals the number of pending activations
(hence is non-negative), never exceeds `concurrency`, and in priority mode
`waiting` is sorted by priority descending. -/
def QInv (s : Queue) : Prop :=
  s.count = (s.acts.countP unfin : Int)
  ∧ s.count ≤ s.concurrency
  ∧ (s.priorityMode = true → List.Sorted prioGe s.waiting)

/-! ### Properties of the stable descending sort -/

/-- The sort used in priority mode produces a list sorted by priority
descending. -/
lemma jsSortDesc_sorted (l : List Entry) : List.Sorted prioGe (jsSortDesc l) :=
  List.sorted_insertionSort prioGe l

/-- The sort used in priority mode permutes the input. -/
lemma jsSortDesc_perm (l : List Entry) : List.Perm (jsSortDesc l) l :=
  List.perm_insertionSort prioGe l

/-- Inserting an entry leaves each priority class in its original relative
order: the inserted entry goes in front of its own class, and every other
class is untouched. -/
lemma filter_orderedInsert (x : Entry) (t : List Entry) (p : Int) :
    (List.orderedInsert prioGe x t).filter (fun e => decide (e.priority = p)) =
      if x.priority = p then
        x :: t.filter (fun e => decide (e.priority = p))
      else t.filter (fun e => decide (e.priority = p)) := by
  induction t with
  | nil => by_cases hx : x.priority = p <;> simp [List.orderedInsert, hx]
  | cons y ys ih =>
    by_cases hxy : prioGe x y
    · rw [List.orderedInsert_of_le _ _ hxy]
      by_cases hx : x.priority = p <;> simp [List.filter_cons, hx]
    · have hlt : x.priority < y.priority := by
        simpa [prioGe, not_le] using hxy
      have : List.orderedInsert prioGe x (y :: ys) = y :: List.orderedInsert prioGe x ys := by
        simp [List.orderedInsert, hxy]
      rw [this]
      by_cases hx : x.priority = p
      · have hy : y.priority ≠ p := by omega
        simp [List.filter_cons, hx, hy, ih]
      · by_cases hy : y.priority = p <;> simp [List.filter_cons, hx, hy, ih]

/-- Stability of the priority-mode sort: within each priority class, the
sorted list keeps the arrival order of the input. -/
lemma filter_jsSortDesc (l : List Entry) (p : Int) :
    (jsSortDesc l).filter (fun e => decide (e.priority = p)) =
      l.filter (fun e => decide (e.priority = p)) := by
  induction l with
  | nil => rfl
  | cons x xs ih =>
    show (List.orderedInsert prioGe x (jsSortDesc xs)).filter _ = _
    rw [filter_orderedInsert]
    by_cases hx : x.priority = p <;> simp [List.filter_cons, hx, ih]


/-! ### Branch equations for the queue operations -/

lemma takeNext_eq_nil {s : Queue} (now : Int) (hw : s.waiting = []) :
    s.takeNext now = ⟨s, [], true⟩ := by
  unfold Queue.takeNext
  rw [hw]

lemma takeNext_eq_timeout {s : Queue} (now : Int) {e : Entry} {rest : List Entry}
    (hw : s.waiting = e :: rest) (hex : wtExceeded s.waitTimeout now e.start = true) :
    s.takeNext now =
      ⟨if rest.isEmpty then { s with waiting := rest }
        else { s with waiting := rest, pendingPulls := s.pendingPulls + 1 },
       Queue.finish { s with waiting := rest } (some Err.waitTimeout) e.task, false⟩ := by
  unfold Queue.takeNext
  rw [hw]
  simp only [hex, if_true]
  by_cases hre : rest.isEmpty <;> simp [hre]

lemma takeNext_eq_start {s : Queue} (now : Int) {e : Entry} {rest : List Entry}
    (hw : s.waiting = e :: rest) (hex : wtExceeded s.waitTimeout now e.start = false)
    (hc : s.count < s.concurrency) :
    s.takeNext now =
      ⟨(Queue.next { s with waiting := rest } e.task).1,
       (Queue.next { s with waiting := rest } e.task).2, false⟩ := by
  unfold Queue.takeNext
  rw [hw]
  simp only [hex, Bool.false_eq_true, if_false]
  simp only [show ({ s with waiting := rest } : Queue).count = s.count from rfl,
    show ({ s with waiting := rest } : Queue).concurrency = s.concurrency from rfl, hc, if_true]

lemma takeNext_eq_full {s : Queue} (now : Int) {e : Entry} {rest : List Entry}
    (hw : s.waiting = e :: rest) (hex : wtExceeded s.waitTimeout now e.start = false)
    (hc : ¬ s.count < s.concurrency) :
    s.takeNext now = ⟨{ s with waiting := rest }, [], false⟩ := by
  unfold Queue.takeNext
  rw [hw]
  simp only [hex, Bool.false_eq_true, if_false]
  simp only [show ({ s with waiting := rest } : Queue).count = s.count from rfl,
    show ({ s with waiting := rest } : Queue).concurrency = s.concurrency from rfl, hc, if_false]

lemma finishCb_eq_none {s : Queue} {id : Nat} (now : Int) (err : Option Err) (res : Nat)
    (ha : s.acts[id]? = none) :
    s.finishCb id now err res = ⟨s, [], false⟩ := by
  unfold Queue.finishCb
  rw [ha]

lemma finishCb_eq_finished {s : Queue} {id : Nat} (now : Int) (err : Option Err) (res : Nat)
    {a : Act} (ha : s.acts[id]? = some a) (hf : a.finished = true) :
    s.finishCb id now err res = ⟨s, [], false⟩ := by
  unfold Queue.finishCb
  rw [ha]
  simp [hf]

lemma finishCb_eq_first {s : Queue} {id : Nat} (now : Int) (err : Option Err) (res : Nat)
    {a : Act} (ha : s.acts[id]? = some a) (hf : a.finished = false) :
    s.finishCb id now err res =
      (if ({ s with
          count := s.count - 1,
          acts := s.acts.set id ⟨a.task, true, false⟩ } : Queue).paused = false ∧
          ({ s with
          count := s.count - 1,
          acts := s.acts.set id ⟨a.task, true, false⟩ } : Queue).waiting ≠ [] then
         ⟨(Queue.takeNext { s with
            count := s.count - 1,
            acts := s.acts.set id ⟨a.task, true, false⟩ } now).state,
          Queue.finish { s with
            count := s.count - 1,
            acts := s.acts.set id ⟨a.task, true, false⟩ } err res ++
            (Queue.takeNext { s with
              count := s.count - 1,
              acts := s.acts.set id ⟨a.task, true, false⟩ } now).events,
          (Queue.takeNext { s with
            count := s.count - 1,
            acts := s.acts.set id ⟨a.task, true, false⟩ } now).crashed⟩
       else ⟨{ s with
          count := s.count - 1,
          acts := s.acts.set id ⟨a.task, true, false⟩ },
         Queue.finish { s with
           count := s.count - 1,
           acts := s.acts.set id ⟨a.task, true, false⟩ } err res, false⟩) := by
  unfold Queue.finishCb
  rw [ha]
  simp only [hf, Bool.false_eq_true, if_false]

lemma add_eq_immediate {s : Queue} (now : Int) (task : Nat) (priority : Int)
    (hg : s.paused = false ∧ s.count < s.concurrency) :
    s.add now task priority = ⟨(s.next task).1, (s.next task).2, false⟩ := by
  unfold Queue.add
  rw [if_pos hg]

lemma add_eq_enqueue {s : Queue} (now : Int) (task : Nat) (priority : Int)
    (hg : ¬ (s.paused = false ∧ s.count < s.concurrency)) :
    s.add now task priority =
      ⟨{ s with waiting :=
          if s.priorityMode then jsSortDesc (s.waiting ++ [⟨task, now, priority⟩])
          else s.waiting ++ [⟨task, now, priority⟩] }, [], false⟩ := by
  unfold Queue.add
  rw [if_neg hg]

lemma timerFire_eq_armed {s : Queue} {id : Nat} (now : Int) {a : Act}
    (ha : s.acts[id]? = some a) (harm : a.timerArmed = true) :
    s.timerFire id now = s.finishCb id now (some Err.processTimeout) a.task := by
  unfold Queue.timerFire
  rw [ha]
  simp [harm]

lemma timerFire_eq_disarmed {s : Queue} {id : Nat} (now : Int) {a : Act}
    (ha : s.acts[id]? = some a) (harm : a.timerArmed = false) :
    s.timerFire id now = ⟨s, [], false⟩ := by
  unfold Queue.timerFire
  rw [ha]
  simp [harm]

lemma pulse_eq_skip {s : Queue} (now : Int) (hnz : s.pendingPulls ≠ 0)
    (hg : ¬ (s.paused = false ∧ s.waiting ≠ [])) :
    s.pulse now = ⟨{ s with pendingPulls := s.pendingPulls - 1 }, [], false⟩ := by
  unfold Queue.pulse
  rw [if_neg hnz]
  simp only []
  rw [if_neg (by simpa using hg)]

lemma pulse_eq_pull {s : Queue} (now : Int) (hnz : s.pendingPulls ≠ 0)
    (hg : s.paused = false ∧ s.waiting ≠ []) :
    s.pulse now = Queue.takeNext { s with pendingPulls := s.pendingPulls - 1 } now := by
  unfold Queue.pulse
  rw [if_neg hnz]
  simp only []
  rw [if_pos (by simpa using hg)]

/-! ### Preservation of the state invariant -/

lemma qinv_next {s : Queue} (inv : QInv s) (hc : s.count < s.concurrency) (t : Nat) :
    QInv (s.next t).1 := by
  obtain ⟨h1, h2, h3⟩ := inv
  refine ⟨?_, ?_, ?_⟩
  · show s.count + 1 =
      ((s.acts ++ [(⟨t, false, s.processTimeout.isSome⟩ : Act)]).countP unfin : Int)
    rw [List.countP_append, h1]
    simp [unfin]
  · show s.count + 1 ≤ s.concurrency
    omega
  · exact h3

lemma qinv_shift {s : Queue} (inv : QInv s) {e : Entry} {rest : List Entry}
    (hw : s.waiting = e :: rest) : QInv { s with waiting := rest } := by
  obtain ⟨h1, h2, h3⟩ := inv
  refine ⟨h1, h2, fun hpm => ?_⟩
  have := h3 hpm
  rw [hw] at this
  exact this.of_cons

lemma qinv_takeNext {s : Queue} (inv : QInv s) (now : Int) :
    QInv (s.takeNext now).state := by
  cases hw : s.waiting with
  | nil => rw [takeNext_eq_nil now hw]; exact inv
  | cons e rest =>
    have hs1 : QInv { s with waiting := rest } := qinv_shift inv hw
    cases hex : wtExceeded s.waitTimeout now e.start with
    | true =>
      rw [takeNext_eq_timeout now hw hex]
      by_cases hre : rest.isEmpty = true
      · simpa [hre] using hs1
      · obtain ⟨g1, g2, g3⟩ := hs1
        simp only [hre, if_false, Bool.false_eq_true]
        exact ⟨g1, g2, g3⟩
    | false =>
      by_cases hc : s.count < s.concurrency
      · rw [takeNext_eq_start now hw hex hc]
        exact qinv_next hs1 hc e.task
      · rw [takeNext_eq_full now hw hex hc]
        exact hs1

lemma qinv_finishCb {s : Queue} (inv : QInv s) (id : Nat) (now : Int)
    (err : Option Err) (res : Nat) :
    QInv (s.finishCb id now err res).state := by
  cases ha : s.acts[id]? with
  | none => rw [finishCb_eq_none now err res ha]; exact inv
  | some a =>
    cases hf : a.finished with
    | true => rw [finishCb_eq_finished now err res ha hf]; exact inv
    | false =>
      obtain ⟨h1, h2, h3⟩ := inv
      have hlt : id < s.acts.length := (List.getElem?_eq_some_iff.mp ha).1
      have hget : s.acts[id] = a := (List.getElem?_eq_some_iff.mp ha).2
      have hcntP : (s.acts.set id ⟨a.task, true, false⟩).countP unfin
          = s.acts.countP unfin - 1 := by
        rw [List.countP_set unfin s.acts id _ hlt, hget]
        simp [unfin, hf]
      have hone : 1 ≤ s.acts.countP unfin := by
        have hb := List.boole_getElem_le_countP unfin s.acts id hlt
        rw [hget] at hb
        simpa [unfin, hf] using hb
      have hs1 : QInv { s with
          count := s.count - 1,
          acts := s.acts.set id ⟨a.task, true, false⟩ } := by
        refine ⟨?_, ?_, h3⟩
        · show s.count - 1 = _
          rw [hcntP]
          omega
        · show s.count - 1 ≤ s.concurrency
          omega
      rw [finishCb_eq_first now err res ha hf]
      split
      · exact qinv_takeNext hs1 now
      · exact hs1

lemma qinv_takeLoop {s : Queue} (inv : QInv s) (now : Int) (n : Nat) :
    QInv (Queue.takeLoop now n s).state := by
  induction n generalizing s with
  | zero => exact inv
  | succ m ih =>
    unfold Queue.takeLoop
    by_cases hcr : (s.takeNext now).crashed
    · simpa [hcr] using qinv_takeNext inv now
    · simpa [hcr] using ih (qinv_takeNext inv now)

lemma qinv_exec {s : Queue} (inv : QInv s) (st : Step) :
    QInv (exec s st).state := by
  cases st with
  | add now task priority =>
    show QInv (s.add now task priority).state
    by_cases hg : s.paused = false ∧ s.count < s.concurrency
    · rw [add_eq_immediate now task priority hg]
      exact qinv_next inv hg.2 task
    · rw [add_eq_enqueue now task priority hg]
      obtain ⟨h1, h2, h3⟩ := inv
      refine ⟨h1, h2, fun hpm => ?_⟩
      show List.Sorted prioGe (if s.priorityMode = true then _ else _)
      rw [if_pos hpm]
      exact jsSortDesc_sorted _
  | handlerDone now id err res => exact qinv_finishCb inv id now err res
  | timer now id =>
    show QInv (s.timerFire id now).state
    cases ha : s.acts[id]? with
    | none => rw [show s.timerFire id now = ⟨s, [], false⟩ from by
        unfold Queue.timerFire; rw [ha]]; exact inv
    | some a =>
      cases harm : a.timerArmed with
      | true =>
        rw [timerFire_eq_armed now ha harm]
        exact qinv_finishCb inv id now (some Err.processTimeout) a.task
      | false => rw [timerFire_eq_disarmed now ha harm]; exact inv
  | tick now =>
    show QInv (s.pulse now).state
    obtain ⟨h1, h2, h3⟩ := inv
    by_cases h0 : s.pendingPulls = 0
    · unfold Queue.pulse
      rw [if_pos h0]
      exact ⟨h1, h2, h3⟩
    · have hs1 : QInv { s with pendingPulls := s.pendingPulls - 1 } := ⟨h1, h2, h3⟩
      by_cases hg : s.paused = false ∧ s.waiting ≠ []
      · rw [pulse_eq_pull now h0 hg]
        exact qinv_takeNext hs1 now
      · rw [pulse_eq_skip now h0 hg]
        exact hs1
  | pause => obtain ⟨h1, h2, h3⟩ := inv; exact ⟨h1, h2, h3⟩
  | resume now =>
    show QInv (s.resume now).state
    unfold Queue.resume
    by_cases he : s.waiting.isEmpty
    · simp only [he, if_true]
      obtain ⟨h1, h2, h3⟩ := inv
      exact ⟨h1, h2, h3⟩
    · have hl := qinv_takeLoop inv now (s.concurrency - s.count).toNat
      by_cases hcr : (Queue.takeLoop now (s.concurrency - s.count).toNat s).crashed
      · simpa [he, hcr] using hl
      · obtain ⟨g1, g2, g3⟩ := hl
        simp only [he, hcr, if_false, Bool.false_eq_true]
        exact ⟨g1, g2, g3⟩
  | pipe => obtain ⟨h1, h2, h3⟩ := inv; exact ⟨h1, h2, h3⟩

lemma qinv_reach {s0 s : Queue} (inv0 : QInv s0) (hr : Reach s0 s) : QInv s := by
  induction hr with
  | refl => exact inv0
  | step s' st _ ih => exact qinv_exec ih st

lemma qinv_initQ (c : Int) (pm : Bool) (wt pt : Option Int) (hc : 0 ≤ c) :
    QInv (initQ c pm wt pt) := by
  exact ⟨by simp [initQ], by simpa [initQ] using hc, fun _ => by simp [initQ]⟩

/-! ### Events emitted by the individual operations -/

lemma finish_no_handlerStart (s : Queue) (err : Option Err) (res : Nat)
    (i t : Nat) (p hcb : Bool) : Event.handlerStart i t p hcb ∉ s.finish err res := by
  unfold Queue.finish
  cases err <;> split_ifs <;> simp

lemma mem_finish_some {s : Queue} {e : Err} {res : Nat} {ev : Event}
    (h : ev ∈ s.finish (some e) res) :
    ev = Event.failure e res ∨ ev = Event.done (some e) res ∨ ev = Event.drain := by
  unfold Queue.finish at h
  split_ifs at h <;> simp at h <;> tauto

lemma mem_finish_none {s : Queue} {res : Nat} {ev : Event}
    (h : ev ∈ s.finish none res) :
    ev = Event.success res ∨ ev = Event.destAdd res ∨ ev = Event.done none res
      ∨ ev = Event.drain := by
  unfold Queue.finish at h
  split_ifs at h <;> simp at h <;> tauto

lemma finish_countP_failure (s : Queue) (e : Err) (res : Nat) :
    (s.finish (some e) res).countP (fun ev => decide (ev = Event.failure e res)) = 1 := by
  unfold Queue.finish
  split_ifs <;> simp [List.countP_cons, List.countP_append]

lemma finish_countP_done (s : Queue) (err : Option Err) (res : Nat) :
    (s.finish err res).countP (fun ev => decide (ev = Event.done err res)) = 1 := by
  unfold Queue.finish
  cases err <;> split_ifs <;> simp [List.countP_cons, List.countP_append]

lemma finish_countP_drain (s : Queue) (err : Option Err) (res : Nat) :
    (s.finish err res).countP (fun ev => decide (ev = Event.drain)) =
      if s.count = 0 then 1 else 0 := by
  unfold Queue.finish
  cases err <;> split_ifs <;> simp [List.countP_cons, List.countP_append]

lemma finish_mem_done (s : Queue) (err : Option Err) (res : Nat) :
    Event.done err res ∈ s.finish err res := by
  unfold Queue.finish
  cases err <;> split_ifs <;> simp

lemma finish_countP_destAdd (s : Queue) (res : Nat) :
    (s.finish none res).countP (fun ev => decide (ev = Event.destAdd res)) =
      if s.hasDestination then 1 else 0 := by
  unfold Queue.finish
  split_ifs <;> simp [List.countP_cons, List.countP_append]

lemma finish_some_no_destAdd (s : Queue) (e : Err) (res r' : Nat) :
    Event.destAdd r' ∉ s.finish (some e) res := by
  intro h
  rcases mem_finish_some h with h1 | h1 | h1 <;> exact Event.noConfusion h1

lemma next_handlerStart {s : Queue} {t : Nat} {i tt : Nat} {p hcb : Bool}
    (h : Event.handlerStart i tt p hcb ∈ (s.next t).2) :
    i = s.acts.length ∧ tt = t ∧ p = s.paused ∧ hcb = decide (s.count < s.concurrency) := by
  simp [Queue.next] at h
  tauto

lemma takeNext_handlerStart {s : Queue} {now : Int} {i t : Nat} {p hcb : Bool}
    (h : Event.handlerStart i t p hcb ∈ (s.takeNext now).events) :
    p = s.paused ∧ hcb = true := by
  cases hw : s.waiting with
  | nil => rw [takeNext_eq_nil now hw] at h; simp at h
  | cons e rest =>
    cases hex : wtExceeded s.waitTimeout now e.start with
    | true =>
      rw [takeNext_eq_timeout now hw hex] at h
      simp only [] at h
      exact absurd h (finish_no_handlerStart _ _ _ _ _ _ _)
    | false =>
      by_cases hc : s.count < s.concurrency
      · rw [takeNext_eq_start now hw hex hc] at h
        obtain ⟨_, _, hp, hcb'⟩ := next_handlerStart h
        refine ⟨hp, ?_⟩
        rw [hcb']
        exact decide_eq_true hc
      · rw [takeNext_eq_full now hw hex hc] at h
        simp at h

lemma takeLoop_handlerStart {now : Int} {n : Nat} {s : Queue} {i t : Nat} {p hcb : Bool}
    (h : Event.handlerStart i t p hcb ∈ (Queue.takeLoop now n s).events) :
    hcb = true := by
  induction n generalizing s with
  | zero => simp [Queue.takeLoop] at h
  | succ m ih =>
    unfold Queue.takeLoop at h
    by_cases hcr : (s.takeNext now).crashed
    · rw [if_pos hcr] at h
      exact (takeNext_handlerStart h).2
    · rw [if_neg hcr] at h
      simp only [List.mem_append] at h
      rcases h with h | h
      · exact (takeNext_handlerStart h).2
      · exact ih h

lemma finishCb_handlerStart {s : Queue} {id : Nat} {now : Int} {err : Option Err} {res : Nat}
    {i t : Nat} {p hcb : Bool}
    (h : Event.handlerStart i t p hcb ∈ (s.finishCb id now err res).events) :
    p = false ∧ hcb = true := by
  cases ha : s.acts[id]? with
  | none => rw [finishCb_eq_none now err res ha] at h; simp at h
  | some a =>
    cases hf : a.finished with
    | true => rw [finishCb_eq_finished now err res ha hf] at h; simp at h
    | false =>
      rw [finishCb_eq_first now err res ha hf] at h
      split at h
      · rename_i hcond
        simp only [List.mem_append] at h
        rcases h with h | h
        · exact absurd h (finish_no_handlerStart _ _ _ _ _ _ _)
        · obtain ⟨hp, hcb'⟩ := takeNext_handlerStart h
          exact ⟨hp.trans hcond.1, hcb'⟩
      · simp only [] at h
        exact absurd h (finish_no_handlerStart _ _ _ _ _ _ _)

lemma exec_handlerStart_hadChannel {s : Queue} {st : Step} {i t : Nat} {p hcb : Bool}
    (h : Event.handlerStart i t p hcb ∈ (exec s st).events) : hcb = true := by
  cases st with
  | add now task priority =>
    by_cases hg : s.paused = false ∧ s.count < s.concurrency
    · rw [show exec s (.add now task priority) = s.add now task priority from rfl,
        add_eq_immediate now task priority hg] at h
      obtain ⟨_, _, _, hcb'⟩ := next_handlerStart h
      rw [hcb']
      exact decide_eq_true hg.2
    · rw [show exec s (.add now task priority) = s.add now task priority from rfl,
        add_eq_enqueue now task priority hg] at h
      simp at h
  | handlerDone now id err res => exact (finishCb_handlerStart h).2
  | timer now id =>
    replace h : Event.handlerStart i t p hcb ∈ (s.timerFire id now).events := h
    cases ha : s.acts[id]? with
    | none =>
      rw [show s.timerFire id now = ⟨s, [], false⟩ from by
        unfold Queue.timerFire; rw [ha]] at h
      simp at h
    | some a =>
      cases harm : a.timerArmed with
      | true =>
        rw [timerFire_eq_armed now ha harm] at h
        exact (finishCb_handlerStart h).2
      | false => rw [timerFire_eq_disarmed now ha harm] at h; simp at h
  | tick now =>
    replace h : Event.handlerStart i t p hcb ∈ (s.pulse now).events := h
    by_cases h0 : s.pendingPulls = 0
    · unfold Queue.pulse at h
      rw [if_pos h0] at h
      simp at h
    · by_cases hg : s.paused = false ∧ s.waiting ≠ []
      · rw [pulse_eq_pull now h0 hg] at h
        exact (takeNext_handlerStart h).2
      · rw [pulse_eq_skip now h0 hg] at h
        simp at h
  | pause => simp [exec, Queue.pause] at h
  | resume now =>
    replace h : Event.handlerStart i t p hcb ∈ (s.resume now).events := h
    unfold Queue.resume at h
    by_cases he : s.waiting.isEmpty
    · rw [if_pos he] at h; simp at h
    · rw [if_neg he] at h
      by_cases hcr : (Queue.takeLoop now (s.concurrency - s.count).toNat s).crashed
      · rw [if_pos hcr] at h
        exact takeLoop_handlerStart h
      · rw [if_neg hcr] at h
        exact takeLoop_handlerStart h
  | pipe => simp [exec, Queue.pipe] at h

lemma exec_handlerStart_paused {s : Queue} {st : Step} {i t : Nat} {p hcb : Bool}
    (hnr : st.isResume = false)
    (h : Event.handlerStart i t p hcb ∈ (exec s st).events) : p = false := by
  cases st with
  | add now task priority =>
    by_cases hg : s.paused = false ∧ s.count < s.concurrency
    · rw [show exec s (.add now task priority) = s.add now task priority from rfl,
        add_eq_immediate now task priority hg] at h
      obtain ⟨_, _, hp, _⟩ := next_handlerStart h
      rw [hp]
      exact hg.1
    · rw [show exec s (.add now task priority) = s.add now task priority from rfl,
        add_eq_enqueue now task priority hg] at h
      simp at h
  | handlerDone now id err res => exact (finishCb_handlerStart h).1
  | timer now id =>
    replace h : Event.handlerStart i t p hcb ∈ (s.timerFire id now).events := h
    cases ha : s.acts[id]? with
    | none =>
      rw [show s.timerFire id now = ⟨s, [], false⟩ from by
        unfold Queue.timerFire; rw [ha]] at h
      simp at h
    | some a =>
      cases harm : a.timerArmed with
      | true =>
        rw [timerFire_eq_armed now ha harm] at h
        exact (finishCb_handlerStart h).1
      | false => rw [timerFire_eq_disarmed now ha harm] at h; simp at h
  | tick now =>
    replace h : Event.handlerStart i t p hcb ∈ (s.pulse now).events := h
    by_cases h0 : s.pendingPulls = 0
    · unfold Queue.pulse at h
      rw [if_pos h0] at h
      simp at h
    · by_cases hg : s.paused = false ∧ s.waiting ≠ []
      · rw [pulse_eq_pull now h0 hg] at h
        exact (takeNext_handlerStart h).1.trans hg.1
      · rw [pulse_eq_skip now h0 hg] at h
        simp at h
  | pause => simp [exec, Queue.pause] at h
  | resume now => simp [Step.isResume] at hnr
  | pipe => simp [exec, Queue.pipe] at h

/-! ### Claim theorems -/

/-- C1: for every queue (built with a non-negative channel count, as the
data model requires) and every sequence of operations — add, completion
callbacks, timer firings, scheduled pulls, pause, resume, pipe — the active
count stays within bounds: 0 ≤ count ≤ concurrency holds in every reachable
state, hence before and after each operation, even on sequences where
resume throws. -/
theorem c1_active_count_bounds (c : Int) (pm : Bool) (wt pt : Option Int) (s : Queue)
    (hc : 0 ≤ c) (hr : Reach (initQ c pm wt pt) s) :
    0 ≤ s.count ∧ s.count ≤ s.concurrency := by
  obtain ⟨h1, h2, _⟩ := qinv_reach (qinv_initQ c pm wt pt hc) hr
  refine ⟨?_, h2⟩
  rw [h1]
  exact Int.natCast_nonneg _

/-- Witness for C1 at a concrete reachable state: one task added to a fresh
two-channel queue. -/
theorem c1_active_count_bounds_witness :
    0 ≤ (exec (initQ 2 false none none) (Step.add 0 5 0)).state.count ∧
      (exec (initQ 2 false none none) (Step.add 0 5 0)).state.count ≤
        (exec (initQ 2 false none none) (Step.add 0 5 0)).state.concurrency :=
  c1_active_count_bounds 2 false none none _ (by decide)
    (Reach.step (initQ 2 false none none) (Step.add 0 5 0) Reach.refl)

/-- C2 (counterexample): the claim says a handler invocation starts only
when paused is false at that moment.  But on a paused one-channel queue
holding one waiting task, resume() admits the task through takeNext before
clearing the paused flag: the admission event records pausedAt = true. -/
theorem c2_admission_gate_counterexample :
    (exec (exec (exec (initQ 1 false none none) Step.pause).state
        (Step.add 0 7 0)).state (Step.resume 0)).events
      = [Event.handlerStart 0 7 true true]
    ∧ (exec (exec (initQ 1 false none none) Step.pause).state
        (Step.add 0 7 0)).state.paused = true := by
  exact ⟨by decide, by decide⟩

/-- C2 (amended): every admission happens with active < concurrency at that
moment (the hadChannel field of every emitted handlerStart event is true),
and admissions from add, completion-triggered pulls, timers and scheduled
pulls happen only while paused is false; only resume()'s refill burst can
admit while paused is still true, because resume clears paused after the
burst.  Admission from add increments active by one and invokes the handler
exactly once; the first invocation of a completion callback marks its
activation finished with the timer cleared, and decrements active (exactly,
whenever no waiting task is pulled in its place). -/
theorem c2_admission_gate_amended :
    (∀ (s : Queue) (st : Step) (i t : Nat) (p hcb : Bool),
       Event.handlerStart i t p hcb ∈ (exec s st).events → hcb = true)
    ∧ (∀ (s : Queue) (st : Step) (i t : Nat) (p hcb : Bool), st.isResume = false →
       Event.handlerStart i t p hcb ∈ (exec s st).events → p = false)
    ∧ (∀ (s : Queue) (now : Int) (task : Nat) (priority : Int),
       s.paused = false → s.count < s.concurrency →
       (exec s (Step.add now task priority)).state.count = s.count + 1 ∧
       (exec s (Step.add now task priority)).events
         = [Event.handlerStart s.acts.length task false true])
    ∧ (∀ (s : Queue) (id : Nat) (now : Int) (err : Option Err) (res : Nat) (a : Act),
       s.acts[id]? = some a → a.finished = false →
       s.waiting = [] →
       (s.finishCb id now err res).state.count = s.count - 1) := by
  refine ⟨?_, ?_, ?_, ?_⟩
  · exact fun s st i t p hcb h => exec_handlerStart_hadChannel h
  · exact fun s st i t p hcb hnr h => exec_handlerStart_paused hnr h
  · intro s now task priority hp hc
    rw [show exec s (Step.add now task priority) = s.add now task priority from rfl,
      add_eq_immediate now task priority ⟨hp, hc⟩]
    refine ⟨rfl, ?_⟩
    show [Event.handlerStart s.acts.length task s.paused (decide (s.count < s.concurrency))] = _
    rw [hp, decide_eq_true hc]
  · intro s id now err res a ha hf hw
    rw [finishCb_eq_first now err res ha hf]
    split
    · rename_i hcond
      exact absurd hw hcond.2
    · rfl

/-- Witness for C2 (amended), applied at a fresh one-channel queue: adding
a task increments the count and starts the handler unpaused. -/
theorem c2_admission_gate_amended_witness :
    (exec (initQ 1 false none none) (Step.add 0 3 0)).state.count
        = (initQ 1 false none none).count + 1
    ∧ (exec (initQ 1 false none none) (Step.add 0 3 0)).events
        = [Event.handlerStart (initQ 1 false none none).acts.length 3 false true] :=
  c2_admission_gate_amended.2.2.1 (initQ 1 false none none) 0 3 0 (by decide) (by decide)

/-- C3: evaluation at the failing input.  The claim (and the spec) say
resume() first clears paused and then starts exactly
min(waiting.length, concurrency - active) waiting tasks.  On a paused
queue with concurrency 2 and a single waiting task, the code instead runs
its takeNext loop concurrency - active = 2 times before touching paused:
the first call starts the task (while paused is still true), the second
shifts the empty waiting array and throws a TypeError, so resume never
reaches its paused = false assignment. -/
theorem c3_resume_failing_input :
    (exec (exec (exec (initQ 2 false none none) Step.pause).state
        (Step.add 0 7 0)).state (Step.resume 0)).crashed = true
    ∧ (exec (exec (exec (initQ 2 false none none) Step.pause).state
        (Step.add 0 7 0)).state (Step.resume 0)).state.paused = true
    ∧ (exec (exec (exec (initQ 2 false none none) Step.pause).state
        (Step.add 0 7 0)).state (Step.resume 0)).events
      = [Event.handlerStart 0 7 true true] := by
  exact ⟨by decide, by decide, by decide⟩

lemma finish_mem_failure (s : Queue) (e : Err) (res : Nat) :
    Event.failure e res ∈ s.finish (some e) res := by
  unfold Queue.finish
  split_ifs <;> simp

lemma takeNext_no_failure_pt (s : Queue) (now : Int) (x : Nat) :
    Event.failure Err.processTimeout x ∉ (s.takeNext now).events := by
  intro h
  cases hw : s.waiting with
  | nil => rw [takeNext_eq_nil now hw] at h; simp at h
  | cons e rest =>
    cases hex : wtExceeded s.waitTimeout now e.start with
    | true =>
      rw [takeNext_eq_timeout now hw hex] at h
      simp only [] at h
      rcases mem_finish_some h with h1 | h1 | h1 <;> simp at h1
    | false =>
      by_cases hc : s.count < s.concurrency
      · rw [takeNext_eq_start now hw hex hc] at h
        simp [Queue.next] at h
      · rw [takeNext_eq_full now hw hex hc] at h
        simp at h

lemma takeNext_no_done_pt (s : Queue) (now : Int) (x : Nat) :
    Event.done (some Err.processTimeout) x ∉ (s.takeNext now).events := by
  intro h
  cases hw : s.waiting with
  | nil => rw [takeNext_eq_nil now hw] at h; simp at h
  | cons e rest =>
    cases hex : wtExceeded s.waitTimeout now e.start with
    | true =>
      rw [takeNext_eq_timeout now hw hex] at h
      simp only [] at h
      rcases mem_finish_some h with h1 | h1 | h1 <;> simp at h1
    | false =>
      by_cases hc : s.count < s.concurrency
      · rw [takeNext_eq_start now hw hex hc] at h
        simp [Queue.next] at h
      · rw [takeNext_eq_full now hw hex hc] at h
        simp at h

lemma takeNext_acts_getElem {s : Queue} (now : Int) {id : Nat} (hlt : id < s.acts.length) :
    (s.takeNext now).state.acts[id]? = s.acts[id]? := by
  cases hw : s.waiting with
  | nil => rw [takeNext_eq_nil now hw]
  | cons e rest =>
    cases hex : wtExceeded s.waitTimeout now e.start with
    | true =>
      rw [takeNext_eq_timeout now hw hex]
      split <;> rfl
    | false =>
      by_cases hc : s.count < s.concurrency
      · rw [takeNext_eq_start now hw hex hc]
        exact List.getElem?_append_left hlt
      · rw [takeNext_eq_full now hw hex hc]

lemma finishCb_acts_first {s : Queue} {id : Nat} (now : Int) (err : Option Err) (res : Nat)
    {a : Act} (ha : s.acts[id]? = some a) (hf : a.finished = false) :
    (s.finishCb id now err res).state.acts[id]? = some ⟨a.task, true, false⟩ := by
  have hlt : id < s.acts.length := (List.getElem?_eq_some_iff.mp ha).1
  have hset : (s.acts.set id ⟨a.task, true, false⟩)[id]? = some ⟨a.task, true, false⟩ :=
    List.getElem?_set_self (by simpa using hlt)
  rw [finishCb_eq_first now err res ha hf]
  split
  · rw [takeNext_acts_getElem now (by simpa using hlt)]
    exact hset
  · exact hset

lemma finishCb_mem_done {s : Queue} {id : Nat} (now : Int) (err : Option Err) (res : Nat)
    {a : Act} (ha : s.acts[id]? = some a) (hf : a.finished = false) :
    Event.done err res ∈ (s.finishCb id now err res).events := by
  rw [finishCb_eq_first now err res ha hf]
  split
  · exact List.mem_append_left _ (finish_mem_done _ err res)
  · exact finish_mem_done _ err res

lemma finishCb_pull_starts {s : Queue} {id : Nat} (now : Int) (err : Option Err) (res : Nat)
    {a : Act} {e : Entry} {rest : List Entry}
    (ha : s.acts[id]? = some a) (hf : a.finished = false)
    (hcle : s.count ≤ s.concurrency) (hp : s.paused = false) (hw : s.waiting = e :: rest) :
    (∃ (i : Nat) (p hcb : Bool),
        Event.handlerStart i e.task p hcb ∈ (s.finishCb id now err res).events)
    ∨ Event.failure Err.waitTimeout e.task ∈ (s.finishCb id now err res).events := by
  rw [finishCb_eq_first now err res ha hf]
  split
  · rename_i hcond
    show (∃ (i : Nat) (p hcb : Bool), Event.handlerStart i e.task p hcb ∈ _ ++ _) ∨
      Event.failure Err.waitTimeout e.task ∈ _ ++ _
    set s1 : Queue := { s with
      count := s.count - 1,
      acts := s.acts.set id ⟨a.task, true, false⟩ } with hs1
    have hw1 : s1.waiting = e :: rest := hw
    cases hex : wtExceeded s1.waitTimeout now e.start with
    | true =>
      right
      rw [takeNext_eq_timeout now hw1 hex]
      exact List.mem_append_right _ (finish_mem_failure _ _ _)
    | false =>
      left
      have hc : s1.count < s1.concurrency := by
        show s.count - 1 < s.concurrency
        omega
      rw [takeNext_eq_start now hw1 hex hc]
      refine ⟨s1.acts.length, s1.paused, decide (s1.count < s1.concurrency), ?_⟩
      exact List.mem_append_right _ (by simp [Queue.next])
  · rename_i hcond
    exact absurd ⟨hp, by rw [hw]; exact List.cons_ne_nil e rest⟩ hcond

/-- C4: while priorityMode is true the waiting sequence is sorted by
priority descending after every operation (reachable-state invariant), the
sort is stable (each priority class keeps its arrival order) and a
permutation; tasks with priorities 1, 5, 3 enqueued while the single
channel is busy are drained in order 5, 3, 1; and while priorityMode is
false, waiting is strict FIFO: add appends at the tail and takeNext always
consumes the head. -/
theorem c4_priority_ordering :
    (∀ (c : Int) (pm : Bool) (wt pt : Option Int) (s : Queue), 0 ≤ c →
       Reach (initQ c pm wt pt) s → s.priorityMode = true →
       List.Sorted prioGe s.waiting)
    ∧ (∀ (l : List Entry) (p : Int),
       (jsSortDesc l).filter (fun e => decide (e.priority = p))
         = l.filter (fun e => decide (e.priority = p)))
    ∧ (∀ l : List Entry, List.Perm (jsSortDesc l) l)
    ∧ startedTasks (runSteps (initQ 1 true none none)
        [Step.add 0 9 0, Step.add 0 1 1, Step.add 0 5 5, Step.add 0 3 3,
         Step.handlerDone 0 0 none 0, Step.handlerDone 0 1 none 0,
         Step.handlerDone 0 2 none 0]).2 = [9, 5, 3, 1]
    ∧ (∀ (s : Queue) (now : Int) (task : Nat) (priority : Int),
       s.priorityMode = false → ¬(s.paused = false ∧ s.count < s.concurrency) →
       (s.add now task priority).state.waiting = s.waiting ++ [⟨task, now, priority⟩])
    ∧ (∀ (s : Queue) (now : Int) (e : Entry) (rest : List Entry),
       s.waiting = e :: rest → (s.takeNext now).state.waiting = rest) := by
  refine ⟨?_, ?_, ?_, by decide, ?_, ?_⟩
  · intro c pm wt pt s hc hr hpm
    exact (qinv_reach (qinv_initQ c pm wt pt hc) hr).2.2 hpm
  · exact filter_jsSortDesc
  · exact jsSortDesc_perm
  · intro s now task priority hpm hg
    rw [add_eq_enqueue now task priority hg]
    show (if s.priorityMode = true then _ else _) = _
    rw [if_neg (by simp [hpm])]
  · intro s now e rest hw
    cases hex : wtExceeded s.waitTimeout now e.start with
    | true =>
      rw [takeNext_eq_timeout now hw hex]
      split <;> rfl
    | false =>
      by_cases hc : s.count < s.concurrency
      · rw [takeNext_eq_start now hw hex hc]
        rfl
      · rw [takeNext_eq_full now hw hex hc]

/-- Witness for C4 at a concrete reachable state: two prioritized adds on a
zero-channel priority queue leave the waiting list sorted descending. -/
theorem c4_priority_ordering_witness :
    List.Sorted prioGe (exec (exec (initQ 0 true none none) (Step.add 0 1 1)).state
      (Step.add 0 5 5)).state.waiting :=
  c4_priority_ordering.1 0 true none none _ (by decide)
    (Reach.step (exec (initQ 0 true none none) (Step.add 0 1 1)).state (Step.add 0 5 5)
      (Reach.step (initQ 0 true none none) (Step.add 0 1 1) Reach.refl))
    (by decide)

/-- C5: when the head of the waiting list has outstayed a finite
waitTimeout, takeNext finishes it with the WaitTimeout error and the task
as result without touching the active count or the activations (so the
handler is never invoked for it — no handlerStart is emitted and the entry
is removed); one asynchronous follow-up pull is scheduled exactly when
entries remain; and a scheduled pull that fires while the queue is paused
or empty does nothing but consume itself. -/
theorem c5_wait_timeout (s : Queue) (now : Int) (e : Entry) (rest : List Entry) (w : Int)
    (hw : s.waiting = e :: rest) (hwt : s.waitTimeout = some w) (hex : now - e.start > w) :
    (s.takeNext now).state.count = s.count
    ∧ (s.takeNext now).state.acts = s.acts
    ∧ (s.takeNext now).state.waiting = rest
    ∧ Event.failure Err.waitTimeout e.task ∈ (s.takeNext now).events
    ∧ Event.done (some Err.waitTimeout) e.task ∈ (s.takeNext now).events
    ∧ (∀ (i t : Nat) (p hcb : Bool), Event.handlerStart i t p hcb ∉ (s.takeNext now).events)
    ∧ (s.takeNext now).state.pendingPulls
        = s.pendingPulls + (if rest.isEmpty then 0 else 1)
    ∧ (s.takeNext now).crashed = false
    ∧ (∀ (s' : Queue) (now' : Int), s'.pendingPulls ≠ 0 →
        s'.paused = true ∨ s'.waiting = [] →
        s'.pulse now' = ⟨{ s' with pendingPulls := s'.pendingPulls - 1 }, [], false⟩) := by
  have hexB : wtExceeded s.waitTimeout now e.start = true := by
    rw [hwt]
    exact decide_eq_true hex
  rw [takeNext_eq_timeout now hw hexB]
  refine ⟨by split <;> rfl, by split <;> rfl, by split <;> rfl, ?_, ?_, ?_, ?_,
    by split <;> rfl, ?_⟩
  · exact finish_mem_failure _ _ _
  · exact finish_mem_done _ _ _
  · intro i t p hcb
    show Event.handlerStart i t p hcb ∉
      Queue.finish { s with waiting := rest } (some Err.waitTimeout) e.task
    exact finish_no_handlerStart _ _ _ _ _ _ _
  · by_cases hre : rest.isEmpty = true <;> simp [hre]
  · intro s' now' hnz hpe
    refine pulse_eq_skip now' hnz ?_
    rintro ⟨hp, hne⟩
    rcases hpe with hpe | hpe
    · rw [hpe] at hp
      exact Bool.noConfusion hp
    · exact hne hpe

/-- Witness for C5: a one-channel queue whose only waiting entry (task 2,
enqueued at 0) is pulled at time 100 against waitTimeout 50. -/
theorem c5_wait_timeout_witness :
    Event.failure Err.waitTimeout 2 ∈
      (Queue.takeNext ⟨1, false, some 50, none, false, false, 1,
        [⟨2, 0, 0⟩], 0, [⟨1, false, false⟩]⟩ 100).events
    ∧ (Queue.takeNext ⟨1, false, some 50, none, false, false, 1,
        [⟨2, 0, 0⟩], 0, [⟨1, false, false⟩]⟩ 100).state.count
      = (⟨1, false, some 50, none, false, false, 1,
        [⟨2, 0, 0⟩], 0, [⟨1, false, false⟩]⟩ : Queue).count :=
  ⟨(c5_wait_timeout _ 100 ⟨2, 0, 0⟩ [] 50 rfl rfl (by decide)).2.2.2.1,
   (c5_wait_timeout _ 100 ⟨2, 0, 0⟩ [] 50 rfl rfl (by decide)).1⟩

/-- C6: when the process timer of a pending activation fires (the timer is
armed exactly when processTimeout is finite, and stays armed only while the
handler has not called back), exactly one onFailure and one onDone call are
emitted, both carrying the ProcessTimeout error and the original task as
the result payload; the channel is released: the activation is marked
finished with its timer cleared (so a second firing is a no-op — exactly
once), the count drops by one when nothing is waiting, and when the queue
is unpaused with a waiting head the freed channel lets that task start (or
fail its own wait timeout). -/
theorem c6_process_timeout (s : Queue) (id : Nat) (now : Int) (a : Act)
    (ha : s.acts[id]? = some a) (harm : a.timerArmed = true) (hf : a.finished = false) :
    ((s.timerFire id now).events.countP
        (fun ev => decide (ev = Event.failure Err.processTimeout a.task)) = 1)
    ∧ ((s.timerFire id now).events.countP
        (fun ev => decide (ev = Event.done (some Err.processTimeout) a.task)) = 1)
    ∧ (s.waiting = [] → (s.timerFire id now).state.count = s.count - 1)
    ∧ (s.timerFire id now).state.acts[id]? = some ⟨a.task, true, false⟩
    ∧ (∀ now' : Int, Queue.timerFire (s.timerFire id now).state id now'
        = ⟨(s.timerFire id now).state, [], false⟩)
    ∧ (s.count ≤ s.concurrency → s.paused = false →
        ∀ (e : Entry) (rest : List Entry), s.waiting = e :: rest →
        (∃ (i : Nat) (p hcb : Bool),
            Event.handlerStart i e.task p hcb ∈ (s.timerFire id now).events)
        ∨ Event.failure Err.waitTimeout e.task ∈ (s.timerFire id now).events) := by
  rw [timerFire_eq_armed now ha harm]
  refine ⟨?_, ?_, ?_, ?_, ?_, ?_⟩
  · rw [finishCb_eq_first now (some Err.processTimeout) a.task ha hf]
    split
    · show (Queue.finish _ (some Err.processTimeout) a.task
          ++ (Queue.takeNext _ now).events).countP _ = 1
      rw [List.countP_append, finish_countP_failure]
      have h0 : (Queue.takeNext { s with
          count := s.count - 1,
          acts := s.acts.set id ⟨a.task, true, false⟩ } now).events.countP
          (fun ev => decide (ev = Event.failure Err.processTimeout a.task)) = 0 := by
        refine List.countP_eq_zero.mpr ?_
        intro ev hev
        simp only [decide_eq_true_eq]
        intro hh
        rw [hh] at hev
        exact takeNext_no_failure_pt _ now a.task hev
      rw [h0]
    · show (Queue.finish _ (some Err.processTimeout) a.task).countP _ = 1
      exact finish_countP_failure _ _ _
  · rw [finishCb_eq_first now (some Err.processTimeout) a.task ha hf]
    split
    · show (Queue.finish _ (some Err.processTimeout) a.task
          ++ (Queue.takeNext _ now).events).countP _ = 1
      rw [List.countP_append, finish_countP_done]
      have h0 : (Queue.takeNext { s with
          count := s.count - 1,
          acts := s.acts.set id ⟨a.task, true, false⟩ } now).events.countP
          (fun ev => decide (ev = Event.done (some Err.processTimeout) a.task)) = 0 := by
        refine List.countP_eq_zero.mpr ?_
        intro ev hev
        simp only [decide_eq_true_eq]
        intro hh
        rw [hh] at hev
        exact takeNext_no_done_pt _ now a.task hev
      rw [h0]
    · show (Queue.finish _ (some Err.processTimeout) a.task).countP _ = 1
      exact finish_countP_done _ _ _
  · intro hw
    rw [finishCb_eq_first now (some Err.processTimeout) a.task ha hf]
    split
    · rename_i hcond
      exact absurd hw hcond.2
    · rfl
  · exact finishCb_acts_first now (some Err.processTimeout) a.task ha hf
  · intro now'
    exact timerFire_eq_disarmed now'
      (finishCb_acts_first now (some Err.processTimeout) a.task ha hf) rfl
  · intro hcle hp e rest hw
    exact finishCb_pull_starts now (some Err.processTimeout) a.task ha hf hcle hp hw

/-- Witness for C6: a one-channel queue whose single activation (task 4,
timer armed) times out with nothing waiting. -/
theorem c6_process_timeout_witness :
    ((Queue.timerFire ⟨1, false, none, some 30, false, false, 1,
        [], 0, [⟨4, false, true⟩]⟩ 0 30).events.countP
      (fun ev => decide (ev = Event.failure Err.processTimeout 4)) = 1)
    ∧ (Queue.timerFire ⟨1, false, none, some 30, false, false, 1,
        [], 0, [⟨4, false, true⟩]⟩ 0 30).state.count
      = (⟨1, false, none, some 30, false, false, 1,
        [], 0, [⟨4, false, true⟩]⟩ : Queue).count - 1 :=
  ⟨(c6_process_timeout ⟨1, false, none, some 30, false, false, 1,
      [], 0, [⟨4, false, true⟩]⟩ 0 30 ⟨4, false, true⟩ rfl rfl rfl).1,
   (c6_process_timeout ⟨1, false, none, some 30, false, false, 1,
      [], 0, [⟨4, false, true⟩]⟩ 0 30 ⟨4, false, true⟩ rfl rfl rfl).2.2.1 rfl⟩

/-- C7: the per-task completion callback is idempotent.  After any first
invocation the activation is finished, so a second invocation (with any
arguments, from handler or timer) returns the state unchanged and emits
nothing; hence two calls produce exactly one Finish invocation (one done
event, emitted by the first call) and exactly one channel release (the
activation flips to finished once, and the count drops by exactly one when
no waiting task is pulled into the freed channel); a callback invoked on an
already-finished activation is a complete no-op. -/
theorem c7_completion_idempotent (s : Queue) (id : Nat) (now now' : Int)
    (err err' : Option Err) (res res' : Nat) (a : Act) (ha : s.acts[id]? = some a) :
    (Queue.finishCb (s.finishCb id now err res).state id now' err' res'
        = ⟨(s.finishCb id now err res).state, [], false⟩)
    ∧ (a.finished = false →
        Event.done err res ∈ (s.finishCb id now err res).events
        ∧ (s.finishCb id now err res).state.acts[id]? = some ⟨a.task, true, false⟩
        ∧ (s.waiting = [] → (s.finishCb id now err res).state.count = s.count - 1))
    ∧ (a.finished = true → s.finishCb id now err res = ⟨s, [], false⟩) := by
  refine ⟨?_, ?_, ?_⟩
  · cases hf : a.finished with
    | true =>
      rw [finishCb_eq_finished now err res ha hf]
      exact finishCb_eq_finished now' err' res' ha hf
    | false =>
      exact finishCb_eq_finished now' err' res'
        (finishCb_acts_first now err res ha hf) rfl
  · intro hf
    refine ⟨finishCb_mem_done now err res ha hf,
      finishCb_acts_first now err res ha hf, ?_⟩
    intro hw
    rw [finishCb_eq_first now err res ha hf]
    split
    · rename_i hcond
      exact absurd hw hcond.2
    · rfl
  · intro hf
    exact finishCb_eq_finished now err res ha hf

/-- Witness for C7: double invocation of the completion callback for the
only activation of a one-channel queue; the second call changes nothing. -/
theorem c7_completion_idempotent_witness :
    Queue.finishCb (Queue.finishCb ⟨1, false, none, none, false, false, 1,
        [], 0, [⟨4, false, false⟩]⟩ 0 0 none 9).state 0 0 none 9
      = ⟨(Queue.finishCb ⟨1, false, none, none, false, false, 1,
        [], 0, [⟨4, false, false⟩]⟩ 0 0 none 9).state, [], false⟩ :=
  (c7_completion_idempotent ⟨1, false, none, none, false, false, 1,
      [], 0, [⟨4, false, false⟩]⟩ 0 0 0 none none 9 9 ⟨4, false, false⟩ rfl).1

/-- C8 (counterexample): the claim says onDrain fires exactly once per
transition of active from 1 to 0 and at no other time.  On a one-channel
queue with waitTimeout 50 holding one active task and one stale waiting
task, the single completion step takes count from 1 to 0 (one transition)
but emits drain twice: once from the completion's own Finish, and again
from the wait-timeout Finish of the pulled entry, which runs while count is
already 0. -/
theorem c8_drain_counterexample :
    ((exec (runSteps (initQ 1 false (some 50) none)
        [Step.add 0 1 0, Step.add 0 2 0]).1 (Step.handlerDone 100 0 none 10)).events.countP
      (fun ev => decide (ev = Event.drain)) = 2)
    ∧ (runSteps (initQ 1 false (some 50) none)
        [Step.add 0 1 0, Step.add 0 2 0]).1.count = 1
    ∧ (exec (runSteps (initQ 1 false (some 50) none)
        [Step.add 0 1 0, Step.add 0 2 0]).1 (Step.handlerDone 100 0 none 10)).state.count
      = 0 := by
  exact ⟨by decide, by decide, by decide⟩

/-- C8 (amended): onDrain fires on exactly those Finish invocations at
which the active count is 0 — so it fires once at each completion that
takes active from 1 to 0, but also on wait-timeout Finishes that run while
active is already 0.  In particular the claim's own example holds: a
two-channel queue processing two tasks that both fail fires drain exactly
once, after both complete. -/
theorem c8_drain_amended :
    (∀ (s : Queue) (err : Option Err) (res : Nat),
       (s.finish err res).countP (fun ev => decide (ev = Event.drain))
         = if s.count = 0 then 1 else 0)
    ∧ ((runSteps (initQ 2 false none none)
        [Step.add 0 1 0, Step.add 0 2 0,
         Step.handlerDone 0 0 (some (Err.handler 0)) 1,
         Step.handlerDone 0 1 (some (Err.handler 0)) 2]).2.countP
      (fun ev => decide (ev = Event.drain)) = 1) := by
  exact ⟨finish_countP_drain, by decide⟩

/-- C9: a Finish with no error on a queue with a wired destination submits
the result to the destination's add exactly once (and not at all without a
destination); a Finish with an error never calls the destination; onDone is
invoked on both the success and the failure path; and the forwarding call
passes no priority, so the destination's add stores the spec-default
priority 0 (shown for a paused destination, where the entry is enqueued). -/
theorem c9_pipe_forwarding :
    (∀ (s : Queue) (res : Nat),
       (s.finish none res).countP (fun ev => decide (ev = Event.destAdd res))
         = if s.hasDestination then 1 else 0)
    ∧ (∀ (s : Queue) (e : Err) (res r' : Nat), Event.destAdd r' ∉ s.finish (some e) res)
    ∧ (∀ (s : Queue) (err : Option Err) (res : Nat), Event.done err res ∈ s.finish err res)
    ∧ (∀ (s : Queue) (now : Int) (task : Nat), s.paused = true →
       (s.add now task).state.waiting
         = (if s.priorityMode then jsSortDesc (s.waiting ++ [⟨task, now, 0⟩])
            else s.waiting ++ [⟨task, now, 0⟩])) := by
  refine ⟨finish_countP_destAdd, finish_some_no_destAdd, finish_mem_done, ?_⟩
  intro s now task hp
  rw [add_eq_enqueue now task 0 (by simp [hp])]

/-- Witness for C9: a paused destination queue receiving a forwarded result
with no explicit priority stores it with priority 0. -/
theorem c9_pipe_forwarding_witness :
    (Queue.add ⟨1, false, none, none, true, true, 0, [], 0, []⟩ 5 7).state.waiting
      = [⟨7, 5, 0⟩] := by
  have h := c9_pipe_forwarding.2.2.2 ⟨1, false, none, none, true, true, 0, [], 0, []⟩ 5 7 rfl
  simpa using h

/-- C10 (counterexample): the claim says every invocation of takeNext
happens when a channel is known free, and that no dequeued waiting entry is
ever silently dropped.  But a zero-delay pull scheduled by a wait-timeout
cascade re-checks only paused and non-emptiness, not the channel: after the
cascade, a fresh add fills the only channel, and when the scheduled pull
runs, it dequeues the still-fresh entry (task 3), finds count =
concurrency, and returns — the entry vanishes with no handler start and no
failure report. -/
theorem c10_pull_free_channel_counterexample :
    (runSteps (initQ 1 false (some 50) none)
        [Step.add 0 1 0, Step.add 0 2 0, Step.add 60 3 0,
         Step.handlerDone 100 0 none 10, Step.add 100 4 0]).1.waiting = [⟨3, 60, 0⟩]
    ∧ (runSteps (initQ 1 false (some 50) none)
        [Step.add 0 1 0, Step.add 0 2 0, Step.add 60 3 0,
         Step.handlerDone 100 0 none 10, Step.add 100 4 0]).1.count
      = (runSteps (initQ 1 false (some 50) none)
        [Step.add 0 1 0, Step.add 0 2 0, Step.add 60 3 0,
         Step.handlerDone 100 0 none 10, Step.add 100 4 0]).1.concurrency
    ∧ (exec (runSteps (initQ 1 false (some 50) none)
        [Step.add 0 1 0, Step.add 0 2 0, Step.add 60 3 0,
         Step.handlerDone 100 0 none 10, Step.add 100 4 0]).1 (Step.tick 105)).events = []
    ∧ (exec (runSteps (initQ 1 false (some 50) none)
        [Step.add 0 1 0, Step.add 0 2 0, Step.add 60 3 0,
         Step.handlerDone 100 0 none 10, Step.add 100 4 0]).1
        (Step.tick 105)).state.waiting = [] := by
  exact ⟨by decide, by decide, by decide, by decide⟩

/-- C10 (amended): pulls triggered synchronously by a completion do find a
free channel — on any state within the count bound, a first completion
whose queue is unpaused with a non-empty waiting list either starts the
dequeued head or reports its wait timeout, never dropping it silently.
Only the asynchronously scheduled pulls of a wait-timeout cascade can run
with no free channel and then drop the dequeued entry. -/
theorem c10_pull_amended (s : Queue) (id : Nat) (now : Int) (err : Option Err) (res : Nat)
    (a : Act) (e : Entry) (rest : List Entry)
    (hcle : s.count ≤ s.concurrency) (ha : s.acts[id]? = some a) (hf : a.finished = false)
    (hp : s.paused = false) (hw : s.waiting = e :: rest) :
    (∃ (i : Nat) (p hcb : Bool),
        Event.handlerStart i e.task p hcb ∈ (s.finishCb id now err res).events)
    ∨ Event.failure Err.waitTimeout e.task ∈ (s.finishCb id now err res).events :=
  finishCb_pull_starts now err res ha hf hcle hp hw

/-- Witness for C10 (amended): completing the only active task of a
one-channel queue with one fresh waiting entry starts that entry. -/
theorem c10_pull_amended_witness :
    (∃ (i : Nat) (p hcb : Bool),
        Event.handlerStart i 2 p hcb ∈ (Queue.finishCb ⟨1, false, none, none, false,
          false, 1, [⟨2, 0, 0⟩], 0, [⟨1, false, false⟩]⟩ 0 0 none 9).events)
    ∨ Event.failure Err.waitTimeout 2 ∈ (Queue.finishCb ⟨1, false, none, none, false,
        false, 1, [⟨2, 0, 0⟩], 0, [⟨1, false, false⟩]⟩ 0 0 none 9).events :=
  c10_pull_amended ⟨1, false, none, none, false, false, 1, [⟨2, 0, 0⟩], 0,
    [⟨1, false, false⟩]⟩ 0 0 none 9 ⟨1, false, false⟩ ⟨2, 0, 0⟩ []
    (by decide) rfl rfl rfl rfl
